import Mathlib

/-!
Verification of the GEX dashboard core against its specification.

The Python sources embedded here are `src/utils/gex_calculator.py`
(symbol parsing and the `GEXCalculator` class) and
`src/utils/websocket_manager.py` (`generate_option_symbols`,
`get_underlying_price`, and the reconnect backoff of `_message_loop`).
Floating-point values are modelled as rationals; Python `None` becomes
`Option`; a call that blocks forever (acquiring a non-reentrant lock that
the same thread already holds) is modelled as `none`.
-/

namespace GEXDash

/-! ## Character classes used by the symbol pattern

The source matches symbols with the regex `\.([A-Z]+)(\d{6})([CP])(\d+)`
via `re.match`, which anchors at the start of the string only. -/

def isUpperAZ (c : Char) : Bool := decide ('A' ≤ c) && decide (c ≤ 'Z')

def isDigit09 (c : Char) : Bool := decide ('0' ≤ c) && decide (c ≤ '9')

/-- `int(...)` applied to a nonempty string of decimal digits. -/
def digitsToNat (l : List Char) : Nat :=
  l.foldl (fun a c => 10 * a + (c.toNat - 48)) 0

/-- The record returned by `parse_option_symbol` on success:
keys `'prefix'`, `'expiration'`, `'type'`, `'strike'`. -/
structure ParsedOption where
  pfx : List Char
  expiration : List Char
  optType : Char
  strike : Nat
deriving DecidableEq

/-- Stage 4 of the pattern: `(\d+)` — the maximal digit run, which must
be nonempty; whatever follows it is ignored because `re.match` does not
anchor at the end of the string. -/
def parseStrike (letters expd : List Char) (c : Char) (r3 : List Char) :
    Option ParsedOption :=
  let ds := r3.takeWhile isDigit09
  if ds.isEmpty then none else some ⟨letters, expd, c, digitsToNat ds⟩

/-- Stage 3 of the pattern: `([CP])` — one character, `C` or `P`. -/
def parseRight (letters expd : List Char) (r2 : List Char) :
    Option ParsedOption :=
  match r2 with
  | [] => none
  | c :: r3 => if c = 'C' ∨ c = 'P' then parseStrike letters expd c r3 else none

/-- Stage 2 of the pattern: `(\d{6})` — exactly six digits. -/
def parseExp (letters r1 : List Char) : Option ParsedOption :=
  let expd := r1.take 6
  if expd.length = 6 ∧ expd.all isDigit09 then
    parseRight letters expd (r1.drop 6)
  else none

/-- Stage 1 of the pattern: `([A-Z]+)` — the maximal uppercase run,
which must be nonempty.  Because `[A-Z]` and `\d` are disjoint character
classes, regex backtracking can never shorten this run, so the greedy
maximal run is the only candidate. -/
def parseLetters (rest : List Char) : Option ParsedOption :=
  if (rest.takeWhile isUpperAZ).isEmpty then none
  else parseExp (rest.takeWhile isUpperAZ) (rest.dropWhile isUpperAZ)

/-- Embedding of `parse_option_symbol` (gex_calculator.py lines 13-37).
`re.match(r'\.([A-Z]+)(\d{6})([CP])(\d+)', symbol)` anchors only at the
start of the string: a literal dot, then the four stages above; any
trailing characters after the strike digits are accepted and ignored. -/
def parse_option_symbol (s : String) : Option ParsedOption :=
  match s.data with
  | [] => none
  | c₀ :: rest => if c₀ = '.' then parseLetters rest else none

/-! ## GEXCalculator state -/

/-- One value of `self.options[symbol]`: gamma and open interest are the
values passed to `update_gamma` and may be Python `None`. -/
structure OptionData where
  gamma : Option ℚ
  oi : Option ℚ
  optType : Char
  strike : Nat
deriving DecidableEq

/-- One value of `self.gex_by_strike[strike]`
(a defaultdict defaulting to zeros for both sides). -/
structure StrikeGEX where
  call_gex : ℚ
  put_gex : ℚ
deriving DecidableEq

/-- The mutable state of a `GEXCalculator`.  Dicts are association lists
in insertion order (Python dicts preserve insertion order; updated keys
keep their slot, fresh keys append at the end).  The time series is a
deque of (timestamp, total_gex) pairs, oldest first. -/
structure GEXCalculator where
  spot_price : ℚ
  options : List (String × OptionData)
  gex_by_strike : List (Nat × StrikeGEX)
  time_series : List (ℚ × ℚ)
  max_history_seconds : ℚ
  last_snapshot_time : ℚ
deriving DecidableEq

/-- `GEXCalculator.__init__` (lines 46-67). -/
def GEXCalculator.init (max_history_seconds spot_price : ℚ) : GEXCalculator :=
  { spot_price := spot_price
    options := []
    gex_by_strike := []
    time_series := []
    max_history_seconds := max_history_seconds
    last_snapshot_time := 0 }

/-- Dict read: first (and only) binding of a key. -/
def getOption : List (String × OptionData) → String → Option OptionData
  | [], _ => none
  | (s, v) :: rest, sym => if s = sym then some v else getOption rest sym

/-- Dict write `self.options[symbol] = rec`. -/
def setOption : List (String × OptionData) → String → OptionData →
    List (String × OptionData)
  | [], sym, v => [(sym, v)]
  | (s, w) :: rest, sym, v =>
    if s = sym then (s, v) :: rest else (s, w) :: setOption rest sym v

def lookupStrike : List (Nat × StrikeGEX) → Nat → Option StrikeGEX
  | [], _ => none
  | (k, v) :: rest, k' => if k = k' then some v else lookupStrike rest k'

/-- `self.gex_by_strike[strike]` read with the defaultdict default. -/
def strikeEntry (l : List (Nat × StrikeGEX)) (k : Nat) : StrikeGEX :=
  (lookupStrike l k).getD ⟨0, 0⟩

/-- Write through the defaultdict: `self.gex_by_strike[strike]` is created
with zero entries when absent, then one field is modified in place. -/
def setStrikeGEX : List (Nat × StrikeGEX) → Nat → (StrikeGEX → StrikeGEX) →
    List (Nat × StrikeGEX)
  | [], k, f => [(k, f ⟨0, 0⟩)]
  | (k', v) :: rest, k, f =>
    if k' = k then (k', f v) :: rest else (k', v) :: setStrikeGEX rest k f

/-- The generator expression in `_recalculate_gex_for_option`
(lines 133-141 and 143-151): sum of `gamma * oi * 100 * spot_price` over
all tracked options at the given strike on the given side whose gamma and
open interest are both non-`None`; records with either field `None` are
filtered out by the generator's conditions, not summed as zero inputs. -/
def gexSum (options : List (String × OptionData)) (strike : Nat)
    (side : Char) (spot : ℚ) : ℚ :=
  (options.filterMap (fun p =>
    if p.2.strike = strike ∧ p.2.optType = side then
      match p.2.gamma, p.2.oi with
      | some g, some oi => some (g * oi * 100 * spot)
      | _, _ => none
    else none)).sum

/-- Overwrite the `'call_gex'` field of a strike entry. -/
def withCallGEX (v : ℚ) (e : StrikeGEX) : StrikeGEX := { e with call_gex := v }

/-- Overwrite the `'put_gex'` field of a strike entry. -/
def withPutGEX (v : ℚ) (e : StrikeGEX) : StrikeGEX := { e with put_gex := v }

/-- Embedding of `_recalculate_gex_for_option` (lines 106-151).  The local
variable `gex` the source computes at lines 123-128 is never read
afterwards, so it is omitted.  Any stored type other than `'C'` takes the
put branch, exactly as the source's `else`. -/
def recalculate_gex_for_option (c : GEXCalculator) (sym : String) :
    GEXCalculator :=
  match getOption c.options sym with
  | none => c
  | some opt =>
    if opt.optType = 'C' then
      let g := setStrikeGEX c.gex_by_strike opt.strike
        (withCallGEX (gexSum c.options opt.strike 'C' c.spot_price))
      { c with gex_by_strike := g }
    else
      let g := setStrikeGEX c.gex_by_strike opt.strike
        (withPutGEX (gexSum c.options opt.strike 'P' c.spot_price))
      { c with gex_by_strike := g }

/-- Embedding of `update_gamma` (lines 79-104): parse, and on failure
return unchanged; otherwise upsert the option record and recompute the
affected strike side. -/
def update_gamma (c : GEXCalculator) (sym : String)
    (gamma oi : Option ℚ) : GEXCalculator :=
  match parse_option_symbol sym with
  | none => c
  | some p =>
    let c' := { c with
      options := setOption c.options sym ⟨gamma, oi, p.optType, p.strike⟩ }
    recalculate_gex_for_option c' sym

/-- Embedding of `update_spot_price` (lines 69-77). -/
def update_spot_price (c : GEXCalculator) (price : ℚ) : GEXCalculator :=
  { c with spot_price := price }

/-! ## Zero-gamma level -/

def insertAsc (x : Nat) : List Nat → List Nat
  | [] => [x]
  | y :: ys => if x ≤ y then x :: y :: ys else y :: insertAsc x ys

/-- Python's `sorted` on the strike keys (ascending). -/
def sortStrikes (l : List Nat) : List Nat := l.foldr insertAsc []

/-- Net GEX read for one strike key (`call_gex - put_gex`). -/
def netAt (gbs : List (Nat × StrikeGEX)) (k : Nat) : ℚ :=
  (strikeEntry gbs k).call_gex - (strikeEntry gbs k).put_gex

/-- The scan over adjacent sorted strikes in
`_get_zero_gamma_level_unlocked` (lines 197-212): the first pair whose
net values have strictly negative product is interpolated; the inner
`net_gex2 != net_gex1` guard falls through to the next pair when it
fails (it never can when the product is negative). -/
def scanZero (gbs : List (Nat × StrikeGEX)) : List Nat → Option ℚ
  | s1 :: s2 :: rest =>
    let n1 := netAt gbs s1
    let n2 := netAt gbs s2
    if n1 * n2 < 0 then
      if n2 ≠ n1 then
        some ((s1 : ℚ) + ((s2 : ℚ) - (s1 : ℚ)) * (-n1) / (n2 - n1))
      else scanZero gbs (s2 :: rest)
    else scanZero gbs (s2 :: rest)
  | _ => none

/-- Embedding of `_get_zero_gamma_level_unlocked` (lines 182-212).
`if not self.gex_by_strike or len(self.gex_by_strike) < 2` collapses to
the length test. -/
def get_zero_gamma_level_unlocked (c : GEXCalculator) : Option ℚ :=
  if c.gex_by_strike.length < 2 then none
  else scanZero c.gex_by_strike (sortStrikes (c.gex_by_strike.map Prod.fst))

/-! ## Summary metrics -/

/-- The dict returned by `get_total_gex_metrics`. -/
structure GEXMetrics where
  total_call_gex : ℚ
  total_put_gex : ℚ
  net_gex : ℚ
  max_gex_strike : Nat
  max_gex_value : ℚ
  zero_gamma : Option ℚ
  num_options : Nat
deriving DecidableEq

/-- One iteration of the totals/max loop in `get_total_gex_metrics`
(lines 256-266); the state is (total_call, total_put, max_net_gex,
max_gex_strike). -/
def metricsStep (st : ℚ × ℚ × ℚ × Nat) (e : Nat × StrikeGEX) :
    ℚ × ℚ × ℚ × Nat :=
  let net := e.2.call_gex - e.2.put_gex
  let tc := st.1 + e.2.call_gex
  let tp := st.2.1 + e.2.put_gex
  if |net| > |st.2.2.1| then (tc, tp, net, e.1) else (tc, tp, st.2.2.1, st.2.2.2)

/-- The body of `get_total_gex_metrics` (lines 225-276), i.e. the
computation performed once the lock is held.  On an empty
`gex_by_strike` it returns the fixed all-zero dict with `max_gex_strike`
`0`, `zero_gamma` `None` and `num_options` `0`. -/
def total_gex_metrics_body (c : GEXCalculator) : GEXMetrics :=
  if c.gex_by_strike.isEmpty then ⟨0, 0, 0, 0, 0, none, 0⟩
  else
    let st := c.gex_by_strike.foldl metricsStep ((0 : ℚ), (0 : ℚ), (0 : ℚ), 0)
    { total_call_gex := st.1
      total_put_gex := st.2.1
      net_gex := st.1 - st.2.1
      max_gex_strike := st.2.2.2
      max_gex_value := st.2.2.1
      zero_gamma := get_zero_gamma_level_unlocked c
      num_options := c.options.length }

/-! ## The lock and the time-series snapshot

`self.lock` is a `threading.Lock`, which is NOT reentrant: a thread that
acquires it while already holding it blocks forever.  `withLock held
body` models `with self.lock:` executed by a thread for which `held`
says whether it already holds this lock; `none` models a call that never
returns. -/

def withLock (held : Bool) (body : Option α) : Option α :=
  if held then none else body

/-- `get_total_gex_metrics` as a method call: it wraps its body in
`with self.lock:` (line 239). -/
def get_total_gex_metrics (held : Bool) (c : GEXCalculator) :
    Option GEXMetrics :=
  withLock held (some (total_gex_metrics_body c))

/-- `deque(maxlen=720)` append: on overflow the oldest entry is dropped. -/
def dequeAppend (cap : Nat) (xs : List (ℚ × ℚ)) (x : ℚ × ℚ) : List (ℚ × ℚ) :=
  let ys := xs ++ [x]
  ys.drop (ys.length - cap)

/-- Embedding of `add_time_series_snapshot` (lines 298-328), with `now`
standing for `time.time()`.  The throttle check and early `return False`
happen before the lock is taken; the snapshot branch then enters
`with self.lock:` and immediately calls `self.get_total_gex_metrics()`,
which tries to take the same non-reentrant lock again — so that branch
never returns (`none`).  The code after that call (append, set
`last_snapshot_time`, age-based popleft loop) is embedded as written but
is unreachable. -/
def add_time_series_snapshot (held : Bool) (c : GEXCalculator) (now : ℚ) :
    Option (GEXCalculator × Bool) :=
  if now - c.last_snapshot_time < 5 then some (c, false)
  else
    withLock held
      (match get_total_gex_metrics true c with
       | none => none
       | some metrics =>
         let total_gex := metrics.net_gex
         let ts := dequeAppend 720 c.time_series (now, total_gex)
         let cutoff := now - c.max_history_seconds
         let ts' := ts.dropWhile (fun p => p.1 < cutoff)
         some ({ c with time_series := ts', last_snapshot_time := now }, true))

/-! ## Strike ladder generation (websocket_manager.py) -/

/-- The f-string `f".{option_prefix}{expiration}C{strike}"` (or `P`);
`toString` on `ℤ` renders exactly like Python's `str(int)`. -/
def optionSymbolText (optPfx expiration : String) (side : Char) (k : ℤ) :
    String :=
  "." ++ optPfx ++ expiration ++ String.singleton side ++ toString k

/-- The `while current_strike <= end` loop of `generate_option_symbols`
(lines 44-47), run with explicit fuel; the callers below always supply
enough fuel for the loop to run to completion when the increment is
positive. -/
def strikes_loop (inc endv : ℤ) : Nat → ℤ → List ℤ
  | 0, _ => []
  | fuel + 1, cur =>
    if cur ≤ endv then cur :: strikes_loop inc endv fuel (cur + inc) else []

/-- Embedding of `generate_option_symbols` (lines 19-54) with the
expiration string passed explicitly (the source defaults it to today's
date).  `start` is floored to a multiple of the increment with Python's
`//` (floor division, `Int.fdiv`); `end` is floored and then pushed one
increment higher; the loop collects every strike from `start` to `end`
inclusive, and each strike contributes a Call symbol then a Put symbol. -/
def generate_option_symbols (center_price : ℤ) (optPfx : String)
    (strikes_up strikes_down inc : ℤ) (expiration : String) : List String :=
  let start0 := center_price - strikes_down * inc
  let end0 := center_price + strikes_up * inc
  let start := (Int.fdiv start0 inc) * inc
  let endv := (Int.fdiv end0 inc + 1) * inc
  let strikes := strikes_loop inc endv ((endv - start).toNat + 1) start
  strikes.flatMap (fun k =>
    [optionSymbolText optPfx expiration 'C' k,
     optionSymbolText optPfx expiration 'P' k])

/-! ## Underlying price resolution (websocket_manager.py lines 154-200) -/

/-- One event object inside a `FEED_DATA` frame; absent JSON keys are
`none`. -/
structure FeedEvent where
  eventSymbol : String
  eventType : String
  bidPrice : Option ℚ
  askPrice : Option ℚ
deriving DecidableEq

/-- A received frame: its `type` discriminator and its `data` list
(empty for non-data frames). -/
structure FeedMsg where
  mtype : String
  data : List FeedEvent
deriving DecidableEq

/-- Python truthiness of `bid` / `ask`: `None` and `0.0` are falsy. -/
def truthy : Option ℚ → Bool
  | none => false
  | some v => v ≠ 0

/-- The inner `for data in msg.get("data", [])` loop (lines 179-188): on
the first event for the underlying of type `Quote` whose `bidPrice` and
`askPrice` are both truthy, record them and break. -/
def firstQuote (u : String) : List FeedEvent → Option (ℚ × ℚ)
  | [] => none
  | ev :: rest =>
    if ev.eventSymbol = u ∧ ev.eventType = "Quote"
        ∧ truthy ev.bidPrice ∧ truthy ev.askPrice then
      some (ev.bidPrice.getD 0, ev.askPrice.getD 0)
    else firstQuote u rest

/-- Events considered by one received message: only `FEED_DATA` frames
carry data. -/
def quoteOfMsg (u : String) (m : FeedMsg) : Option (ℚ × ℚ) :=
  if m.mtype = "FEED_DATA" then firstQuote u m.data else none

/-- Python 3 `round` on a value modelled exactly as a rational:
round-half-to-even. -/
def pyRound (x : ℚ) : ℤ :=
  let f := ⌊x⌋
  let r := x - (f : ℚ)
  if r < 1 / 2 then f
  else if 1 / 2 < r then f + 1
  else if f % 2 = 0 then f else f + 1

/-- The price each found quote produces at line 184:
`round(((bid + ask) / 2) / 5) * 5` — the divisor is the literal `5`,
not the configured strike increment. -/
def quotePrice (b a : ℚ) : ℤ := pyRound (((b + a) / 2) / 5) * 5

/-- The `for _ in range(20)` scan (lines 176-188) combined with the
truthiness of the running `underlying_price` variable: a computed price
of `0` is falsy, so the scan keeps going, and at line 190 a final falsy
value falls back to the default.  `priceScan` returns `0` exactly when
no scanned message yields a nonzero price. -/
def priceScan (u : String) : List FeedMsg → ℤ
  | [] => 0
  | m :: ms =>
    match quoteOfMsg u m with
    | some (b, a) => let p := quotePrice b a; if p ≠ 0 then p else priceScan u ms
    | none => priceScan u ms

/-- Embedding of `get_underlying_price` (lines 154-200) given the
stream of messages `recv` would deliver: scan at most 20 messages; a
falsy final price means the default is returned (line 190-192). -/
def get_underlying_price (msgs : List FeedMsg) (u : String)
    (default_price : ℤ) : ℤ :=
  let p := priceScan u (msgs.take 20)
  if p ≠ 0 then p else default_price

/-! ## Reconnect backoff (websocket_manager.py `_message_loop`) -/

/-- The observable outcomes of one pass through the supervisor loop
body: `connect()` returned False, `connect()` succeeded (subscription
sent and the inner receive loop was entered), or the inner loop / the
body raised (connection closed or other error). -/
inductive LoopEvent
  | connectFail
  | connectOk
  | streamFail
deriving DecidableEq

/-- `reconnect_delay = min(reconnect_delay * 2, max_reconnect_delay)`
with `max_reconnect_delay = 60` (lines 275, 312, 320). -/
def backoffNext (d : ℕ) : ℕ := min (d * 2) 60

/-- The effect of one loop event on `reconnect_delay`, paired with the
duration of the `time.sleep` it performs (`none` when no sleep happens):
a failed `connect` sleeps the current delay then doubles it (lines
272-276); a successful connect resets the delay to 5 after subscribing
(line 287); an exception from the streaming section sleeps the current
delay then doubles it (lines 306-320). -/
def messageLoopStep (d : ℕ) : LoopEvent → ℕ × Option ℕ
  | .connectFail => (backoffNext d, some d)
  | .connectOk => (5, none)
  | .streamFail => (backoffNext d, some d)

/-- The sleeps performed along a sequence of loop events, starting from
delay state `d` (the loop initialises `reconnect_delay = 5`). -/
def messageLoopWaits (d : ℕ) : List LoopEvent → List ℕ
  | [] => []
  | e :: es =>
    match messageLoopStep d e with
    | (d', some w) => w :: messageLoopWaits d' es
    | (d', none) => messageLoopWaits d' es

/-- Value read by `strikeSide` for the side of a strike entry: the
`'call_gex'` field for side `'C'`, the `'put_gex'` field otherwise. -/
def strikeSide (l : List (Nat × StrikeGEX)) (k : Nat) (side : Char) : ℚ :=
  if side = 'C' then (strikeEntry l k).call_gex else (strikeEntry l k).put_gex

/-! ## Helper lemmas -/

lemma getOption_setOption_self (l : List (String × OptionData))
    (sym : String) (v : OptionData) :
    getOption (setOption l sym v) sym = some v := by
  induction l with
  | nil => simp [setOption, getOption]
  | cons p rest ih =>
    obtain ⟨s, w⟩ := p
    by_cases h : s = sym
    · simp [setOption, getOption, h]
    · simp [setOption, getOption, h, ih]

lemma lookupStrike_setStrikeGEX_self (l : List (Nat × StrikeGEX))
    (k : Nat) (f : StrikeGEX → StrikeGEX) :
    lookupStrike (setStrikeGEX l k f) k = some (f (strikeEntry l k)) := by
  induction l with
  | nil => simp [setStrikeGEX, lookupStrike, strikeEntry]
  | cons p rest ih =>
    obtain ⟨k', v⟩ := p
    by_cases h : k' = k
    · simp [setStrikeGEX, lookupStrike, strikeEntry, h]
    · simp [setStrikeGEX, lookupStrike, strikeEntry, h, ih]

lemma parseStrike_right {letters expd : List Char} {c : Char}
    {r3 : List Char} {r : ParsedOption}
    (h : parseStrike letters expd c r3 = some r) : r.optType = c := by
  simp only [parseStrike] at h
  split at h
  · exact absurd h (by simp)
  · cases h; rfl

lemma parseRight_right {letters expd r2 : List Char} {r : ParsedOption}
    (h : parseRight letters expd r2 = some r) :
    r.optType = 'C' ∨ r.optType = 'P' := by
  cases r2 with
  | nil => exact absurd h (by simp [parseRight])
  | cons c r3 =>
    simp only [parseRight] at h
    split at h
    · rename_i hc
      rw [parseStrike_right h]; exact hc
    · exact absurd h (by simp)

/-- A successful parse only ever reports right `'C'` or `'P'`. -/
lemma parse_optType {s : String} {r : ParsedOption}
    (h : parse_option_symbol s = some r) :
    r.optType = 'C' ∨ r.optType = 'P' := by
  unfold parse_option_symbol at h
  split at h
  · exact absurd h (by simp)
  · split at h
    · simp only [parseLetters] at h
      split at h
      · exact absurd h (by simp)
      · simp only [parseExp] at h
        split at h
        · exact parseRight_right h
        · exact absurd h (by simp)
    · exact absurd h (by simp)

/-! ## Claim theorems -/

/-- Claim C1: immediately after a successful `update_gamma` for a symbol
of right `R` and strike `K`, the stored per-strike exposure on side `R`
at strike `K` equals the sum of `gamma * open_interest * 100 *
spot_price` over all currently-tracked option records at strike `K` of
right `R` whose gamma and open interest are both present; records with
an absent field are excluded from the sum and no error occurs. -/
theorem update_gamma_strike_side_eq_sum (c : GEXCalculator) (sym : String)
    (gamma oi : Option ℚ) (p : ParsedOption)
    (hp : parse_option_symbol sym = some p) :
    strikeSide (update_gamma c sym gamma oi).gex_by_strike p.strike p.optType
      = gexSum (update_gamma c sym gamma oi).options p.strike p.optType
          (update_gamma c sym gamma oi).spot_price := by
  rcases parse_optType hp with hC | hP
  · simp [update_gamma, hp, recalculate_gex_for_option,
      getOption_setOption_self, hC, strikeSide, strikeEntry,
      lookupStrike_setStrikeGEX_self, withCallGEX]
  · simp [update_gamma, hp, recalculate_gex_for_option,
      getOption_setOption_self, hP, strikeSide, strikeEntry,
      lookupStrike_setStrikeGEX_self, withPutGEX]

theorem update_gamma_strike_side_eq_sum_witness :
    parse_option_symbol ".SPXW251214C6000"
        = some ⟨"SPXW".data, "251214".data, 'C', 6000⟩
    ∧ strikeSide (update_gamma (GEXCalculator.init 3600 6000)
          ".SPXW251214C6000" (some (1 / 20)) (some 1000)).gex_by_strike
          6000 'C'
        = gexSum (update_gamma (GEXCalculator.init 3600 6000)
            ".SPXW251214C6000" (some (1 / 20)) (some 1000)).options
            6000 'C'
            (update_gamma (GEXCalculator.init 3600 6000)
              ".SPXW251214C6000" (some (1 / 20)) (some 1000)).spot_price :=
  ⟨by decide,
   update_gamma_strike_side_eq_sum (GEXCalculator.init 3600 6000)
     ".SPXW251214C6000" (some (1 / 20)) (some 1000)
     ⟨"SPXW".data, "251214".data, 'C', 6000⟩ (by decide)⟩

/-- Claim C2: the zero-gamma level scans sorted strikes pairwise from
lowest to highest, interpolating `s1 + (s2-s1)*(-net1)/(net2-net1)` at
the first adjacent pair with a strictly negative product of net GEX
values; with fewer than two strikes it is absent; a net of exactly zero
at a sampled strike is not a crossing; on strikes 100 (net +50) and 105
(net -30) the level is 103.125 = 825/8. -/
theorem zero_gamma_level_spec :
    (∀ c : GEXCalculator, c.gex_by_strike.length < 2 →
      get_zero_gamma_level_unlocked c = none)
    ∧ (∀ (gbs : List (Nat × StrikeGEX)) (s1 s2 : Nat) (rest : List Nat),
        netAt gbs s1 * netAt gbs s2 < 0 →
        scanZero gbs (s1 :: s2 :: rest)
          = some ((s1 : ℚ) + ((s2 : ℚ) - (s1 : ℚ)) * (-(netAt gbs s1))
              / (netAt gbs s2 - netAt gbs s1)))
    ∧ get_zero_gamma_level_unlocked
        { GEXCalculator.init 3600 6000 with
          gex_by_strike := [(100, ⟨50, 0⟩), (105, ⟨0, 30⟩)] }
        = some (825 / 8)
    ∧ get_zero_gamma_level_unlocked
        { GEXCalculator.init 3600 6000 with
          gex_by_strike := [(100, ⟨0, 0⟩), (105, ⟨0, 30⟩)] } = none := by
  refine ⟨?_, ?_, ?_, ?_⟩
  · intro c h
    simp [get_zero_gamma_level_unlocked, h]
  · intro gbs s1 s2 rest h
    have hne : netAt gbs s2 ≠ netAt gbs s1 := by
      intro he
      rw [he] at h
      exact absurd h (not_lt.mpr (mul_self_nonneg _))
    simp [scanZero, h, hne]
  · norm_num [get_zero_gamma_level_unlocked, scanZero, sortStrikes,
      insertAsc, netAt, strikeEntry, lookupStrike, GEXCalculator.init]
  · norm_num [get_zero_gamma_level_unlocked, scanZero, sortStrikes,
      insertAsc, netAt, strikeEntry, lookupStrike, GEXCalculator.init]

theorem zero_gamma_level_spec_witness :
    ((GEXCalculator.init 3600 6000).gex_by_strike.length < 2
      ∧ get_zero_gamma_level_unlocked (GEXCalculator.init 3600 6000) = none)
    ∧ (netAt [(100, ⟨50, 0⟩), (105, ⟨0, 30⟩)] 100
          * netAt [(100, ⟨50, 0⟩), (105, ⟨0, 30⟩)] 105 < 0
      ∧ scanZero [(100, ⟨50, 0⟩), (105, ⟨0, 30⟩)] [100, 105]
          = some ((100 : ℚ) + ((105 : ℚ) - (100 : ℚ))
              * (-(netAt [(100, ⟨50, 0⟩), (105, ⟨0, 30⟩)] 100))
              / (netAt [(100, ⟨50, 0⟩), (105, ⟨0, 30⟩)] 105
                  - netAt [(100, ⟨50, 0⟩), (105, ⟨0, 30⟩)] 100))) :=
  ⟨⟨by decide, zero_gamma_level_spec.1 (GEXCalculator.init 3600 6000) (by decide)⟩,
   ⟨by norm_num [netAt, strikeEntry, lookupStrike],
    zero_gamma_level_spec.2.1 [(100, ⟨50, 0⟩), (105, ⟨0, 30⟩)]
      100 105 [] (by norm_num [netAt, strikeEntry, lookupStrike])⟩⟩

/-- Claim C3: `update_spot_price` replaces the shared spot-price scalar
and changes nothing else — options, per-strike exposures, time series,
snapshot throttle state and retention window are untouched. -/
theorem update_spot_price_frame (c : GEXCalculator) (price : ℚ) :
    (update_spot_price c price).spot_price = price
    ∧ (update_spot_price c price).options = c.options
    ∧ (update_spot_price c price).gex_by_strike = c.gex_by_strike
    ∧ (update_spot_price c price).time_series = c.time_series
    ∧ (update_spot_price c price).last_snapshot_time = c.last_snapshot_time
    ∧ (update_spot_price c price).max_history_seconds
        = c.max_history_seconds :=
  ⟨rfl, rfl, rfl, rfl, rfl, rfl⟩

/-- Claim C6 (code bug): a call within the 5-second throttle window is a
no-op returning `False`, but a call for which the throttle has elapsed
never returns at all — it re-acquires the non-reentrant `self.lock`
inside `get_total_gex_metrics` while already holding it — so no snapshot
is ever appended, contradicting the claimed append/True behaviour, the
method's own docstring and the module's `__main__` test. -/
theorem add_time_series_snapshot_throttle_then_deadlock :
    add_time_series_snapshot false
        { GEXCalculator.init 3600 6000 with last_snapshot_time := 100 } 102
      = some ({ GEXCalculator.init 3600 6000 with
          last_snapshot_time := 100 }, false)
    ∧ add_time_series_snapshot false
        { GEXCalculator.init 3600 6000 with last_snapshot_time := 100 } 107
      = none := by
  refine ⟨?_, ?_⟩ <;>
    norm_num [add_time_series_snapshot, get_total_gex_metrics, withLock]

/-- Claim C7 (code bug): `add_time_series_snapshot` does not terminate
on the snapshot branch: with the throttle elapsed (here: a fresh
calculator called at time 10) the body blocks forever on the second
acquisition of the non-reentrant lock, modelled as `none`. -/
theorem add_time_series_snapshot_never_returns :
    add_time_series_snapshot false (GEXCalculator.init 3600 6000) 10
      = none := by
  norm_num [add_time_series_snapshot, get_total_gex_metrics, withLock,
    GEXCalculator.init]

/-- Claim C10: with no strike tracked, `get_total_gex_metrics` returns
the fixed record of zeros with `max_gex_strike` the sentinel `0`,
`zero_gamma` absent and `num_options` `0`, and raises no error. -/
theorem get_total_gex_metrics_empty (c : GEXCalculator)
    (h : c.gex_by_strike = []) :
    get_total_gex_metrics false c = some ⟨0, 0, 0, 0, 0, none, 0⟩ := by
  simp [get_total_gex_metrics, withLock, total_gex_metrics_body, h]

theorem get_total_gex_metrics_empty_witness :
    (GEXCalculator.init 3600 6000).gex_by_strike = []
    ∧ get_total_gex_metrics false (GEXCalculator.init 3600 6000)
        = some ⟨0, 0, 0, 0, 0, none, 0⟩ :=
  ⟨rfl, get_total_gex_metrics_empty (GEXCalculator.init 3600 6000) rfl⟩

/-- Every sleep performed by the loop is at most 60 seconds, provided
the current delay state is: the delay is slept first and then updated to
`min (2·d) 60` or reset to `5`, both of which stay at most 60. -/
lemma messageLoopWaits_le (es : List LoopEvent) :
    ∀ d : ℕ, d ≤ 60 → ∀ w ∈ messageLoopWaits d es, w ≤ 60 := by
  induction es with
  | nil => intro d _ w hw; simp [messageLoopWaits] at hw
  | cons e es ih =>
    intro d hd w hw
    cases e with
    | connectFail =>
      simp only [messageLoopWaits, messageLoopStep, List.mem_cons] at hw
      rcases hw with rfl | hw
      · exact hd
      · exact ih (backoffNext d) (min_le_right _ _) w hw
    | connectOk =>
      simp only [messageLoopWaits, messageLoopStep] at hw
      exact ih 5 (by omega) w hw
    | streamFail =>
      simp only [messageLoopWaits, messageLoopStep, List.mem_cons] at hw
      rcases hw with rfl | hw
      · exact hd
      · exact ih (backoffNext d) (min_le_right _ _) w hw

/-- Claim C8: reconnect backoff.  Three consecutive connect failures
from a fresh loop sleep 5s, 10s, 20s; after a successful connect the
delay is reset, so a subsequent stream failure sleeps 5s again no matter
what the delay was before; six straight failures show the doubling and
the 60-second ceiling; each step either resets the delay to 5 or doubles
it capped at 60; and no sleep ever exceeds 60 seconds. -/
theorem message_loop_backoff_spec :
    messageLoopWaits 5
        [LoopEvent.connectFail, LoopEvent.connectFail, LoopEvent.connectFail]
      = [5, 10, 20]
    ∧ (∀ d : ℕ, messageLoopWaits d [LoopEvent.connectOk, LoopEvent.streamFail]
        = [5])
    ∧ messageLoopWaits 5 (List.replicate 6 LoopEvent.connectFail)
      = [5, 10, 20, 40, 60, 60]
    ∧ (∀ (d : ℕ) (e : LoopEvent),
        (messageLoopStep d e).1 = 5 ∨ (messageLoopStep d e).1 = min (d * 2) 60)
    ∧ (∀ d : ℕ, d ≤ 60 → ∀ es : List LoopEvent,
        ∀ w ∈ messageLoopWaits d es, w ≤ 60) := by
  refine ⟨by decide, ?_, by decide, ?_, ?_⟩
  · intro d
    simp [messageLoopWaits, messageLoopStep]
  · intro d e
    cases e with
    | connectFail => exact Or.inr rfl
    | connectOk => exact Or.inl rfl
    | streamFail => exact Or.inr rfl
  · intro d hd es
    exact messageLoopWaits_le es d hd

theorem message_loop_backoff_spec_witness :
    (5 : ℕ) ≤ 60
    ∧ ∀ w ∈ messageLoopWaits 5 [LoopEvent.connectFail, LoopEvent.streamFail],
        w ≤ 60 :=
  ⟨by decide,
   message_loop_backoff_spec.2.2.2.2 5 (by decide)
     [LoopEvent.connectFail, LoopEvent.streamFail]⟩

/-! ## Claim C4: the strike ladder -/

/-- The ladder the claim describes, written from the claim's words (a
spec-side definition used only to refute the claim): round the center
price to the NEAREST multiple of the increment (the refutation below
uses an exact multiple, so no tie-breaking convention matters), then
emit the strikes from `strikes_down` increments below the center
through `strikes_up` increments above it, inclusive, ascending, one
Call then one Put per strike. -/
def claimed_generate_option_symbols (center : ℤ) (optPfx : String)
    (strikes_up strikes_down inc : ℤ) (expiration : String) : List String :=
  let c0 := Int.fdiv (2 * center + inc) (2 * inc) * inc
  ((List.range (strikes_up + strikes_down + 1).toNat).map
      (fun i : ℕ => c0 - strikes_down * inc + (i : ℤ) * inc)).flatMap
    (fun k =>
      [optionSymbolText optPfx expiration 'C' k,
       optionSymbolText optPfx expiration 'P' k])

/-- The strike list the code actually produces, in closed form: from
`start` (the floor of `center - strikes_down*inc` to a multiple of
`inc`) up to `endv` (one increment above the floor of
`center + strikes_up*inc`), stepping by `inc`. -/
def amended_ladder (center : ℤ) (optPfx : String)
    (strikes_up strikes_down inc : ℤ) (expiration : String) : List String :=
  let start := Int.fdiv (center - strikes_down * inc) inc * inc
  let endv := (Int.fdiv (center + strikes_up * inc) inc + 1) * inc
  ((List.range ((endv - start).toNat / inc.toNat + 1)).map
      (fun i : ℕ => start + (i : ℤ) * inc)).flatMap
    (fun k =>
      [optionSymbolText optPfx expiration 'C' k,
       optionSymbolText optPfx expiration 'P' k])

/-- The strike loop in closed form, given enough fuel. -/
lemma strikes_loop_closed (inc endv : ℤ) (hinc : 0 < inc) :
    ∀ (fuel : ℕ) (cur : ℤ), endv - cur < (fuel : ℤ) * inc →
      strikes_loop inc endv fuel cur
        = if cur ≤ endv then
            (List.range ((endv - cur).toNat / inc.toNat + 1)).map
              (fun i : ℕ => cur + (i : ℤ) * inc)
          else [] := by
  intro fuel
  induction fuel with
  | zero =>
    intro cur h
    have hgt : ¬ cur ≤ endv := by push_cast at h; omega
    simp [strikes_loop, hgt]
  | succ n ih =>
    intro cur h
    by_cases hle : cur ≤ endv
    · have h' : endv - (cur + inc) < (n : ℤ) * inc := by
        push_cast at h; linarith
      simp only [strikes_loop, if_pos hle]
      rw [ih (cur + inc) h']
      by_cases hle2 : cur + inc ≤ endv
      · have hincN : 0 < inc.toNat := by omega
        have hdiv : (endv - cur).toNat / inc.toNat
            = (endv - (cur + inc)).toNat / inc.toNat + 1 := by
          have hA : (endv - cur).toNat
              = (endv - (cur + inc)).toNat + inc.toNat := by omega
          rw [hA, Nat.add_div_right _ hincN]
        rw [if_pos hle2, hdiv]
        conv_rhs => rw [List.range_succ_eq_map, List.map_cons, List.map_map]
        simp only [Nat.cast_zero, zero_mul, add_zero]
        congr 1
        refine List.map_congr_left fun i _ => ?_
        simp only [Function.comp_apply]
        push_cast
        ring
      · have hlt : (endv - cur).toNat < inc.toNat := by omega
        rw [if_neg hle2, Nat.div_eq_of_lt hlt]
        simp [List.range_succ]
    · have h0 : ¬ cur ≤ endv := hle
      simp [strikes_loop, h0]

/-- Claim C4 is false on the code: at center 6000, one strike up, one
strike down, increment 5, the claim predicts the six symbols for strikes
5995, 6000, 6005, but the code emits eight symbols — its `end` is pushed
one increment above the top (here 6010). -/
theorem generate_option_symbols_not_claim_ladder :
    generate_option_symbols 6000 "SPXW" 1 1 5 "251214"
      ≠ claimed_generate_option_symbols 6000 "SPXW" 1 1 5 "251214" := by
  decide

/-- Claim C4 amended: `generate_option_symbols` emits, in ascending
order with a Call then a Put symbol per strike, exactly the strikes from
the floor of `centerPrice - strikesDown*increment` to a multiple of the
increment up to one increment above the floor of
`centerPrice + strikesUp*increment`, inclusive (one extra strike at the
top relative to the claimed ladder when `centerPrice` is already a
multiple of the increment; a floor, not a round-to-nearest, at the
bottom). -/
theorem generate_option_symbols_closed_form (center : ℤ) (optPfx : String)
    (strikes_up strikes_down inc : ℤ) (expiration : String)
    (hinc : 0 < inc) (hup : 0 ≤ strikes_up) (hdown : 0 ≤ strikes_down) :
    generate_option_symbols center optPfx strikes_up strikes_down inc
        expiration
      = amended_ladder center optPfx strikes_up strikes_down inc
          expiration := by
  simp only [generate_option_symbols, amended_ladder]
  have hstart0 : Int.fdiv (center - strikes_down * inc) inc * inc
      ≤ center - strikes_down * inc := by
    rw [Int.fdiv_eq_ediv _ (le_of_lt hinc)]
    exact Int.ediv_mul_le _ (ne_of_gt hinc)
  have hend0 : center + strikes_up * inc
      < (Int.fdiv (center + strikes_up * inc) inc + 1) * inc := by
    rw [Int.fdiv_eq_ediv _ (le_of_lt hinc)]
    exact Int.lt_ediv_add_one_mul_self _ hinc
  have hmid : center - strikes_down * inc ≤ center + strikes_up * inc := by
    have h1 : 0 ≤ strikes_down * inc := mul_nonneg hdown (le_of_lt hinc)
    have h2 : 0 ≤ strikes_up * inc := mul_nonneg hup (le_of_lt hinc)
    linarith
  have hle : Int.fdiv (center - strikes_down * inc) inc * inc
      ≤ (Int.fdiv (center + strikes_up * inc) inc + 1) * inc := by
    linarith
  have hfuel :
      (Int.fdiv (center + strikes_up * inc) inc + 1) * inc
          - Int.fdiv (center - strikes_down * inc) inc * inc
        < ((((Int.fdiv (center + strikes_up * inc) inc + 1) * inc
            - Int.fdiv (center - strikes_down * inc) inc * inc).toNat + 1 : ℕ)
              : ℤ) * inc := by
    push_cast
    have hD : ((Int.fdiv (center + strikes_up * inc) inc + 1) * inc
        - Int.fdiv (center - strikes_down * inc) inc * inc).toNat
        = (Int.fdiv (center + strikes_up * inc) inc + 1) * inc
            - Int.fdiv (center - strikes_down * inc) inc * inc := by
      omega
    rw [hD]
    nlinarith
  rw [strikes_loop_closed inc _ hinc _ _ hfuel, if_pos hle]

theorem generate_option_symbols_closed_form_witness :
    (0 : ℤ) < 5 ∧ (0 : ℤ) ≤ 1
    ∧ generate_option_symbols 6000 "SPXW" 1 1 5 "251214"
        = amended_ladder 6000 "SPXW" 1 1 5 "251214" :=
  ⟨by decide, by decide,
   generate_option_symbols_closed_form 6000 "SPXW" 1 1 5 "251214"
     (by decide) (by decide) (by decide)⟩

/-! ## Claim C5: the symbol pattern -/

/-- A digit is never an uppercase letter: the two character classes of
the pattern are disjoint. -/
lemma digit_not_upper {ch : Char} (h : isDigit09 ch = true) :
    isUpperAZ ch = false := by
  simp only [isDigit09, Bool.and_eq_true, decide_eq_true_eq] at h
  simp only [isUpperAZ, Bool.and_eq_false_iff]
  left
  simp only [decide_eq_false_iff_not]
  intro hA
  exact absurd (le_trans hA h.2) (by decide)

lemma parseStrike_some {letters expd : List Char} {c : Char}
    {r3 : List Char} {r : ParsedOption}
    (h : parseStrike letters expd c r3 = some r) :
    r = ⟨letters, expd, c, digitsToNat (r3.takeWhile isDigit09)⟩
    ∧ r3.takeWhile isDigit09 ≠ [] := by
  simp only [parseStrike] at h
  split at h
  · exact absurd h (by simp)
  · rename_i hne
    cases h
    exact ⟨rfl, fun heq => hne (by simp [heq])⟩

/-- The shape the claim asserts, as a checker (a spec-side definition
used only to refute the claim): the whole string is
`.<letters><6 digits><C|P><digits>` with nothing after the strike
digits. -/
def claimed_strict_shape (s : String) : Bool :=
  match s.data with
  | [] => false
  | c₀ :: rest =>
    (c₀ == '.') && !(rest.takeWhile isUpperAZ).isEmpty &&
      (((rest.dropWhile isUpperAZ).take 6).length == 6) &&
      ((rest.dropWhile isUpperAZ).take 6).all isDigit09 &&
      (match (rest.dropWhile isUpperAZ).drop 6 with
       | [] => false
       | ch :: r3 => (ch == 'C' || ch == 'P') && !r3.isEmpty
           && r3.all isDigit09)

/-- Claim C5 is false on the code: `".SPXW251214C6000X"` does not match
the claimed strict whole-string pattern (the trailing `X` is not part of
any group), yet `parse_option_symbol` accepts it and returns the record
for strike 6000 — `re.match` never anchors at the end of the string. -/
theorem parse_option_symbol_accepts_trailing :
    claimed_strict_shape ".SPXW251214C6000X" = false
    ∧ parse_option_symbol ".SPXW251214C6000X"
        = some ⟨"SPXW".data, "251214".data, 'C', 6000⟩ := by
  constructor <;> decide

/-- Claim C5 amended: `parse_option_symbol` succeeds exactly on strings
that BEGIN with `.<letters><6 digits><C|P><digits>`; characters after
the strike digits are ignored rather than rejected; every other string
yields the explicit `None` result, never a partial record, with no
normalization of case or whitespace. -/
theorem parse_option_symbol_iff_shape (s : String) :
    (∃ r, parse_option_symbol s = some r)
      ↔ ∃ (lp ed ds rest : List Char) (ch : Char),
          s.data = '.' :: (lp ++ (ed ++ ch :: (ds ++ rest)))
          ∧ lp ≠ [] ∧ (∀ a ∈ lp, isUpperAZ a)
          ∧ ed.length = 6 ∧ (∀ a ∈ ed, isDigit09 a)
          ∧ (ch = 'C' ∨ ch = 'P') ∧ ds ≠ [] ∧ (∀ a ∈ ds, isDigit09 a) := by
  constructor
  · rintro ⟨r, h⟩
    simp only [parse_option_symbol] at h
    split at h
    · exact absurd h (by simp)
    · rename_i c₀ rest heq
      split at h
      case isTrue hdot =>
        simp only [parseLetters] at h
        split at h
        · exact absurd h (by simp)
        · rename_i hne
          simp only [parseExp] at h
          split at h
          · rename_i hguard
            cases hr2 : (rest.dropWhile isUpperAZ).drop 6 with
            | nil =>
              rw [hr2] at h
              exact absurd h (by simp [parseRight])
            | cons ch r3 =>
              rw [hr2] at h
              simp only [parseRight] at h
              split at h
              case isTrue hch =>
                obtain ⟨-, hds⟩ := parseStrike_some h
                refine ⟨rest.takeWhile isUpperAZ,
                  (rest.dropWhile isUpperAZ).take 6,
                  r3.takeWhile isDigit09, r3.dropWhile isDigit09, ch,
                  ?_, ?_, ?_, hguard.1, ?_, hch, hds, ?_⟩
                · rw [heq, hdot]
                  congr 1
                  rw [List.takeWhile_append_dropWhile isDigit09 r3, ← hr2,
                    List.take_append_drop 6 (rest.dropWhile isUpperAZ),
                    List.takeWhile_append_dropWhile isUpperAZ rest]
                · intro he
                  exact hne (by simp [he])
                · intro a ha
                  exact List.mem_takeWhile_imp ha
                · intro a ha
                  have := hguard.2
                  rw [List.all_eq_true] at this
                  exact this a ha
                · intro a ha
                  exact List.mem_takeWhile_imp ha
              · exact absurd h (by simp)
          · exact absurd h (by simp)
      · exact absurd h (by simp)
  · rintro ⟨lp, ed, ds, rest, ch, hs, hlp, hlpU, hed6, hedD, hch, hds, hdsD⟩
    have hedne : ed ≠ [] := by
      intro he
      rw [he] at hed6
      simp at hed6
    obtain ⟨e, ed', rfl⟩ := List.exists_cons_of_ne_nil hedne
    have heU : isUpperAZ e = false := digit_not_upper (hedD e (by simp))
    have htail : ((e :: ed') ++ ch :: (ds ++ rest)).takeWhile isUpperAZ
        = [] := by
      rw [List.cons_append, List.takeWhile_cons_of_neg (by simp [heU])]
    have hdtail : ((e :: ed') ++ ch :: (ds ++ rest)).dropWhile isUpperAZ
        = (e :: ed') ++ ch :: (ds ++ rest) := by
      rw [List.cons_append, List.dropWhile_cons_of_neg (by simp [heU])]
    have htw : (lp ++ ((e :: ed') ++ ch :: (ds ++ rest))).takeWhile isUpperAZ
        = lp := by
      rw [List.takeWhile_append_of_pos hlpU, htail, List.append_nil]
    have hdw : (lp ++ ((e :: ed') ++ ch :: (ds ++ rest))).dropWhile isUpperAZ
        = (e :: ed') ++ ch :: (ds ++ rest) := by
      rw [List.dropWhile_append_of_pos hlpU, hdtail]
    have hdsw : (ds ++ rest).takeWhile isDigit09
        = ds ++ rest.takeWhile isDigit09 :=
      List.takeWhile_append_of_pos hdsD
    refine ⟨⟨lp, e :: ed', ch,
      digitsToNat ((ds ++ rest).takeWhile isDigit09)⟩, ?_⟩
    simp only [parse_option_symbol, hs, if_true]
    simp only [parseLetters, htw, hdw]
    rw [if_neg (by simp [hlp])]
    simp only [parseExp]
    rw [List.take_left' hed6, List.drop_left' hed6]
    rw [if_pos ⟨hed6, List.all_eq_true.mpr hedD⟩]
    simp only [parseRight]
    rw [if_pos hch]
    simp only [parseStrike]
    rw [if_neg (by simp [hdsw, hds])]

theorem parse_option_symbol_iff_shape_witness :
    (∃ r, parse_option_symbol ".SPXW251214C6000X" = some r)
      ∧ parse_option_symbol "NOTASYMBOL" = none :=
  ⟨(parse_option_symbol_iff_shape ".SPXW251214C6000X").mpr
     ⟨"SPXW".data, "251214".data, "6000".data, "X".data, 'C',
      by decide, by decide, by decide, by decide, by decide, by decide,
      by decide, by decide⟩,
   by decide⟩

/-! ## Claim C9: center-price resolution -/

/-- The rounding the claim describes (spec-side definition used only to
refute the claim): midpoint rounded to the nearest multiple of the
CONFIGURED strike increment (the refutation below involves no tie, so
the tie convention does not matter). -/
def claimed_round_to_increment (inc : ℤ) (mid : ℚ) : ℤ :=
  pyRound (mid / (inc : ℚ)) * inc

/-- Claim C9 is false on the code: for a session configured with strike
increment 25 that receives the quote bid 6008 / ask 6012 for its
underlying, the claim's rounding gives 6000 (the multiple of 25 nearest
to the midpoint 6010), but `get_underlying_price` divides by the literal
`5`, not the configured increment, and returns 6010. -/
theorem get_underlying_price_ignores_increment :
    get_underlying_price
        [⟨"FEED_DATA", [⟨"SPX", "Quote", some 6008, some 6012⟩]⟩]
        "SPX" 6000
      = 6010
    ∧ claimed_round_to_increment 25 ((6008 + 6012) / 2) = 6000
    ∧ (6010 : ℤ) ≠ 6000 := by
  refine ⟨?_, ?_, by decide⟩
  · norm_num [get_underlying_price, priceScan, quoteOfMsg, firstQuote,
      truthy, quotePrice, pyRound]
  · norm_num [claimed_round_to_increment, pyRound]

/-- The scan yields 0 when every scanned message either carries no
usable quote or carries one whose rounded price is 0 (a value of 0 is
falsy, so the running `underlying_price` variable stays falsy and the
scan keeps going). -/
lemma priceScan_eq_zero_of_all_zero (u : String) (l : List FeedMsg)
    (h : ∀ m ∈ l, ∀ b a, quoteOfMsg u m = some (b, a) →
      quotePrice b a = 0) : priceScan u l = 0 := by
  induction l with
  | nil => rfl
  | cons m ms ih =>
    cases hq : quoteOfMsg u m with
    | none =>
      simp only [priceScan, hq]
      exact ih fun m' hm' => h m' (by simp [hm'])
    | some ba =>
      obtain ⟨b, a⟩ := ba
      simp only [priceScan, hq]
      rw [if_neg (by simpa using h m (by simp) b a hq)]
      exact ih fun m' hm' => h m' (by simp [hm'])

/-- The scan returns the rounded price of the first usable quote whose
rounded price is nonzero, skipping every earlier message that has no
usable quote or only a zero-rounding one. -/
lemma priceScan_first_nonzero (u : String) (l1 l2 : List FeedMsg)
    (m : FeedMsg) (b a : ℚ)
    (h1 : ∀ m' ∈ l1, ∀ b' a', quoteOfMsg u m' = some (b', a') →
      quotePrice b' a' = 0)
    (hq : quoteOfMsg u m = some (b, a)) (hz : quotePrice b a ≠ 0) :
    priceScan u (l1 ++ m :: l2) = quotePrice b a := by
  induction l1 with
  | nil =>
    simp only [List.nil_append, priceScan, hq]
    rw [if_pos hz]
  | cons x xs ih =>
    cases hx : quoteOfMsg u x with
    | none =>
      simp only [List.cons_append, priceScan, hx]
      exact ih fun m' hm' => h1 m' (by simp [hm'])
    | some ba =>
      obtain ⟨b', a'⟩ := ba
      simp only [List.cons_append, priceScan, hx]
      rw [if_neg (by simpa using h1 x (by simp) b' a' hx)]
      exact ih fun m' hm' => h1 m' (by simp [hm'])

/-- Claim C9 amended: `get_underlying_price` scans up to the first 20
received messages (a message-count bound, not a wall-clock timeout) and
returns `round(((bid+ask)/2)/5)*5` — the midpoint rounded to the
nearest multiple of the literal 5 (ties to even), regardless of the
configured strike increment — for the FIRST usable (truthy bid and ask)
quote whose rounded value is nonzero; when no scanned message yields
such a quote it returns the supplied fallback price.  That includes the
corner in the last conjunct: a usable quote whose midpoint rounds to 0
is falsy and is skipped, so bid 1 / ask 2 alone still yields the
fallback. -/
theorem get_underlying_price_spec (msgs : List FeedMsg) (u : String)
    (d : ℤ) :
    ((∀ m ∈ msgs.take 20, ∀ b a, quoteOfMsg u m = some (b, a) →
        quotePrice b a = 0) →
      get_underlying_price msgs u d = d)
    ∧ (∀ (l1 l2 : List FeedMsg) (m : FeedMsg) (b a : ℚ),
        msgs.take 20 = l1 ++ m :: l2 →
        (∀ m' ∈ l1, ∀ b' a', quoteOfMsg u m' = some (b', a') →
          quotePrice b' a' = 0) →
        quoteOfMsg u m = some (b, a) → quotePrice b a ≠ 0 →
        get_underlying_price msgs u d = quotePrice b a)
    ∧ get_underlying_price
        [⟨"FEED_DATA", [⟨u, "Quote", some 1, some 2⟩]⟩] u d = d := by
  refine ⟨?_, ?_, ?_⟩
  · intro h
    simp only [get_underlying_price,
      priceScan_eq_zero_of_all_zero u (msgs.take 20) h]
    simp
  · intro l1 l2 m b a hsplit h1 hq hz
    simp only [get_underlying_price, hsplit,
      priceScan_first_nonzero u l1 l2 m b a h1 hq hz, if_pos hz]
  · norm_num [get_underlying_price, priceScan, quoteOfMsg, firstQuote,
      truthy, quotePrice, pyRound]

theorem get_underlying_price_spec_witness :
    get_underlying_price [] "SPX" 6000 = 6000
    ∧ get_underlying_price
        [⟨"FEED_DATA", [⟨"SPX", "Quote", some 6008, some 6012⟩]⟩]
        "SPX" 6000
      = quotePrice 6008 6012 :=
  ⟨(get_underlying_price_spec [] "SPX" 6000).1 (by simp),
   (get_underlying_price_spec
       [⟨"FEED_DATA", [⟨"SPX", "Quote", some 6008, some 6012⟩]⟩]
       "SPX" 6000).2.1
     [] [] ⟨"FEED_DATA", [⟨"SPX", "Quote", some 6008, some 6012⟩]⟩
     6008 6012 rfl (by simp)
     (by norm_num [quoteOfMsg, firstQuote, truthy])
     (by norm_num [quotePrice, pyRound])⟩

end GEXDash
